import Mathlib

/-
Verification of the sakuin indexing service (Go) against its
natural-language specification.  The definitions below are a shallow
embedding of the Go source:

  - `Value`/`Doc`       model `map[string]interface{}` metadata documents
                        (a value is a scalar/blob — modelled opaquely as
                        `prim` — or a nested document);
  - `mergeDocs`         embeds `mergeDocs` from storage.go;
  - `Upsert`            embeds `InMemoryDocumentStore.Upsert`;
  - `ReadParts`         embeds `ReadParts` from multipart.go (the MIME
                        parser `mime.ParseMediaType` is an external
                        collaborator; its parsed output — media type and
                        parameter map — is the input here);
  - `generateUUID`      embeds `Service.generateUUID`;
  - `Index`             embeds `Service.Index` (sakuin.go);
  - `DeleteFromIndex`   embeds `Service.DeleteFromIndex`.

Go maps are modelled as association lists; Go map iteration touches each
key once, and `mergeDocs` writes only the key it is visiting, so the list
order is semantically inert for the properties proved here.
-/

namespace Sakuin

/-- A metadata value: either a scalar/blob (opaque, `prim`) or a nested
document, mirroring the dynamic `interface{}` test
`sv.(map[string]interface{})` in storage.go. -/
inductive Value where
  | prim (n : Int) : Value
  | doc (entries : List (String × Value)) : Value

/-- A document: `map[string]interface{}` as an association list. -/
abbrev Doc := List (String × Value)

/-- Go map read `v, ok := m[k]`. -/
def lookupAssoc {α : Type} : List (String × α) → String → Option α
  | [], _ => none
  | (k', v) :: rest, k => if k' = k then some v else lookupAssoc rest k

/-- Go map write `m[k] = v`: replaces an existing binding, else appends. -/
def setAssoc {α : Type} : List (String × α) → String → α → List (String × α)
  | [], k, v => [(k, v)]
  | (k', v') :: rest, k, v =>
    if k' = k then (k', v) :: rest else (k', v') :: setAssoc rest k v

/-- Embeds `mergeDocs(dst, src)` of storage.go.  Iterates over the source
entries: an absent key is copied into `dst`; a scalar source value is
skipped (`continue`), leaving the destination value in place; a nested
source document is merged recursively into the destination's nested
document at that key, and a nested source document meeting a scalar
destination value panics (`none` models the Go `panic`). -/
def mergeDocs (dst : Doc) (src : Doc) : Option Doc :=
  match src with
  | [] => some dst
  | (k, sv) :: rest =>
    match lookupAssoc dst k with
    | none => mergeDocs (setAssoc dst k sv) rest
    | some dv =>
      match sv with
      | .prim _ => mergeDocs dst rest
      | .doc svMap =>
        match dv with
        | .prim _ => none
        | .doc dvMap =>
          match mergeDocs dvMap svMap with
          | none => none
          | some merged => mergeDocs (setAssoc dst k (.doc merged)) rest
termination_by sizeOf src
decreasing_by
  all_goals simp
  all_goals omega

/-- The document half of the in-memory backend: id to document. -/
abbrev DocStoreMap := List (String × Doc)

/-- Embeds `InMemoryDocumentStore.Upsert` (storage.go): if a document is
already stored under `id`, the incoming document is merged with it — note
the argument order of the Go call `doc = mergeDocs(doc, d)`: the incoming
document `doc` is the merge destination and the stored document `d` is
the merge source — and the result is stored; otherwise the incoming
document is stored as-is.  `none` models the merge panic. -/
def Upsert (docs : DocStoreMap) (id : String) (doc : Doc) : Option DocStoreMap :=
  match lookupAssoc docs id with
  | some d =>
    match mergeDocs doc d with
    | none => none
    | some merged => some (setAssoc docs id merged)
  | none => some (setAssoc docs id doc)

/-- Embeds `InMemoryDocumentStore.Get`: `none` models `DocumentDoesNotExistErr`. -/
def docGet (docs : DocStoreMap) (id : String) : Option Doc :=
  lookupAssoc docs id

/-- The object half of the in-memory backend: id to object bytes. -/
abbrev ObjStoreMap := List (String × List Nat)

/-- Embeds `InMemoryObjectStore.Put`: unconditionally stores the bytes. -/
def objPut (objs : ObjStoreMap) (id : String) (b : List Nat) : ObjStoreMap :=
  setAssoc objs id b

/-- Embeds the `Exists` field of `InMemoryObjectStore.Stat` (which never
errors): whether an object is stored under `id`. -/
def objStat (objs : ObjStoreMap) (id : String) : Bool :=
  (lookupAssoc objs id).isSome

/-- Lowercase hex digit of `n % 16`, as in `encoding/hex`. -/
def hexChar (n : Nat) : Char :=
  if n < 10 then Char.ofNat (48 + n) else Char.ofNat (87 + n % 16)

/-- Hex rendering of a byte list, two lowercase digits per byte. -/
def hexChars : List Nat → List Char
  | [] => []
  | b :: rest => hexChar (b / 16 % 16) :: hexChar (b % 16) :: hexChars rest

/-- Embeds `uuid.NewRandomFromReader`'s post-read fixup of the 16 random
bytes: `uuid[6] = (uuid[6] & 0x0f) | 0x40; uuid[8] = (uuid[8] & 0x3f) | 0x80`. -/
def setVersionAndVariant (bs : List Nat) : List Nat :=
  (bs.set 6 (bs.getD 6 0 % 16 + 64)).set 8 (bs.getD 8 0 % 64 + 128)

/-- Character content of `uuid.UUID.String()`: hex groups 8-4-4-4-12
joined by dashes. -/
def uuidChars (bs : List Nat) : List Char :=
  hexChars (bs.take 4) ++ '-' ::
    (hexChars ((bs.drop 4).take 2) ++ '-' ::
      (hexChars ((bs.drop 6).take 2) ++ '-' ::
        (hexChars ((bs.drop 8).take 2) ++ '-' ::
          hexChars ((bs.drop 10).take 6))))

/-- Embeds `uuid.UUID.String()` on raw bytes. -/
def uuidString (bs : List Nat) : String :=
  String.mk (uuidChars bs)

/-- The canonical rendering of one 16-byte block drawn from the
randomness source: version/variant fixup followed by `String()`. -/
def renderUUID (block : List Nat) : String :=
  uuidString (setVersionAndVariant block)

/-- Outcome of `Service.generateUUID` (sakuin.go): a fresh id, the error
returned when `objDB.Stat` fails, or the panic raised by `uuid.Must`
when the randomness source fails or is exhausted. -/
inductive GenResult where
  | ok (id : String) : GenResult
  | statErr (e : String) : GenResult
  | panicked : GenResult
deriving DecidableEq

/-- Whether a `GenResult` is an ordinary returned error. -/
def isErrResult : GenResult → Bool
  | .statErr _ => true
  | _ => false

/-- Embeds `Service.generateUUID` (sakuin.go).  The injected `io.Reader`
is modelled as the list of 16-byte blocks its successive
`io.ReadFull`-style reads deliver; a missing or short block is a read
error, on which `uuid.Must` panics.  Otherwise the block is rendered and
the object store's `Stat` is probed: a stat error is returned, an
existing id causes a retry with the next block, an absent id is
returned. -/
def generateUUID (stat : String → Except String Bool) : List (List Nat) → GenResult
  | [] => .panicked
  | block :: rest =>
    if block.length ≠ 16 then .panicked
    else
      match stat (renderUUID block) with
      | .error e => .statErr e
      | .ok true => generateUUID stat rest
      | .ok false => .ok (renderUUID block)

/-- Instrumented variant of `generateUUID` that additionally counts the
`Stat` probes made (one per generated candidate). -/
def generateUUIDProbes (stat : String → Except String Bool) :
    List (List Nat) → GenResult × Nat
  | [] => (.panicked, 0)
  | block :: rest =>
    if block.length ≠ 16 then (.panicked, 0)
    else
      match stat (renderUUID block) with
      | .error e => (.statErr e, 1)
      | .ok true =>
        match generateUUIDProbes stat rest with
        | (r, n) => (r, n + 1)
      | .ok false => (.ok (renderUUID block), 1)

/-- Joint state of the two backend stores held by `Service`. -/
structure ServiceState where
  objects : ObjStoreMap
  docs : DocStoreMap

/-- Outcome of a service operation: success, a returned error, or a panic. -/
inductive SvcResult (α : Type) where
  | ok (val : α) : SvcResult α
  | svcErr (e : String) : SvcResult α
  | panicked : SvcResult α

/-- Embeds `Service.Index` (sakuin.go) over the in-memory stores: allocate
an id through `generateUUID`, then fan out `objDB.Put` and — only when
metadata was supplied (`req.Metadata != nil`) — `docDB.Upsert`.  The two
errgroup branches write to disjoint stores and the in-memory calls are
serialized per store, so the concurrent fan-out is modelled by sequential
composition; `errgroup.Wait` returning the first branch error is modelled
by `groupWait` below. -/
def Index (rnd : List (List Nat)) (st : ServiceState) (metadata : Option Doc)
    (object : List Nat) : SvcResult (String × ServiceState) :=
  match generateUUID (fun id => Except.ok (objStat st.objects id)) rnd with
  | .panicked => .panicked
  | .statErr e => .svcErr e
  | .ok id =>
    let objectsAfter := objPut st.objects id object
    match metadata with
    | none => SvcResult.ok (id, ⟨objectsAfter, st.docs⟩)
    | some m =>
      match Upsert st.docs id m with
      | none => .panicked
      | some docsAfter => SvcResult.ok (id, ⟨objectsAfter, docsAfter⟩)

/-- Embeds `errgroup.Wait` over the recorded outcomes of the launched
branches: the first error if any branch failed, success otherwise. -/
def groupWait : List (Option String) → Option String
  | [] => none
  | none :: rest => groupWait rest
  | some e :: _ => some e

/-- Embeds `Service.DeleteFromIndex`: the body is
`return new(pb.DeleteResponse), nil` — it touches neither store and
always succeeds.  The first component is the returned error (`none` =
success), the second the store state after the call. -/
def DeleteFromIndex (st : ServiceState) (id : String) : Option String × ServiceState :=
  (none, st)

/-- One decoded multipart form part: its form field name and content bytes. -/
structure Part where
  name : String
  content : List Nat

/-- Errors of `ReadParts` (multipart.go): `ContentTypeError` carrying the
rejected media type, `ErrMissingBoundary`, or a failure while reading or
JSON-decoding a part. -/
inductive ReadPartsError where
  | contentType (mediaType : String)
  | missingBoundary
  | partFailure
deriving DecidableEq

/-- Go `strings.HasPrefix(s, p)` on the character sequences. -/
def strStartsWith (s p : String) : Bool :=
  List.take p.data.length s.data == p.data

/-- The part scanning loop of `ReadParts`: each part named `metadata` is
JSON-decoded (the `encoding/json` decoder is the abstract `dec`;
`none` is a decode error, which aborts the scan) into the metadata slot,
each part named `object` is read into the object slot, any other name is
skipped; `io.EOF` ends the scan with the accumulated pair. -/
def readPartsLoop (dec : List Nat → Option (List Nat)) :
    List Part → Option (List Nat) → Option (List Nat) →
    Except ReadPartsError (Option (List Nat) × Option (List Nat))
  | [], m, o => .ok (m, o)
  | p :: rest, m, o =>
    if p.name = "metadata" then
      match dec p.content with
      | none => .error .partFailure
      | some j => readPartsLoop dec rest (some j) o
    else if p.name = "object" then
      readPartsLoop dec rest m (some p.content)
    else
      readPartsLoop dec rest m o

/-- Embeds `ReadParts` (multipart.go) after the external
`mime.ParseMediaType` call: `mediaType` and `params` are that call's
results, `parts` the successive parts the `multipart.Reader` would
deliver for the body.  A media type without the `multipart/form-data`
prefix is rejected with `ContentTypeError`, a missing `boundary`
parameter with `ErrMissingBoundary`; otherwise the parts are scanned. -/
def ReadParts (dec : List Nat → Option (List Nat)) (mediaType : String)
    (params : List (String × String)) (parts : List Part) :
    Except ReadPartsError (Option (List Nat) × Option (List Nat)) :=
  if strStartsWith mediaType "multipart/form-data" then
    match lookupAssoc params "boundary" with
    | none => .error .missingBoundary
    | some _ => readPartsLoop dec parts none none
  else
    .error (.contentType mediaType)

/-- The last part carrying a given form field name, if any. -/
def lastNamed (nm : String) : List Part → Option Part
  | [] => none
  | p :: rest =>
    match lastNamed nm rest with
    | some q => some q
    | none => if p.name = nm then some p else none

/-- Value reached from a document by following a nonempty path of keys
through nested documents. -/
def getPath (d : Doc) : List String → Option Value
  | [] => none
  | [k] => lookupAssoc d k
  | k :: p =>
    match lookupAssoc d k with
    | some (Value.doc inner) => getPath inner p
    | _ => none

/-- Reading back the key just written finds the written value. -/
theorem lookupAssoc_setAssoc_self {α : Type} :
    ∀ (l : List (String × α)) (k : String) (v : α),
      lookupAssoc (setAssoc l k v) k = some v := by
  intro l
  induction l with
  | nil => intro k v; simp [setAssoc, lookupAssoc]
  | cons entry rest ih =>
    intro k v
    obtain ⟨k', v'⟩ := entry
    by_cases h : k' = k
    · simp [setAssoc, lookupAssoc, h]
    · simp [setAssoc, lookupAssoc, h, ih]

/-- Writing one key leaves lookups of other keys unchanged. -/
theorem lookupAssoc_setAssoc_ne {α : Type} :
    ∀ (l : List (String × α)) (k q : String) (v : α), q ≠ k →
      lookupAssoc (setAssoc l k v) q = lookupAssoc l q := by
  intro l
  induction l with
  | nil =>
    intro k q v hne
    simp only [setAssoc, lookupAssoc]
    rw [if_neg (fun hh => hne hh.symm)]
  | cons entry rest ih =>
    intro k q v hne
    obtain ⟨k', v'⟩ := entry
    by_cases h : k' = k
    · subst h
      simp only [setAssoc, if_pos rfl, lookupAssoc]
      rw [if_neg (fun hh => hne hh.symm), if_neg (fun hh => hne hh.symm)]
    · simp only [setAssoc, if_neg h, lookupAssoc]
      by_cases hq : k' = q
      · simp [hq]
      · simp [hq, ih _ _ _ hne]

/-- A scalar field of the merge destination survives every successful
merge: the loop either skips the key (scalar source) or panics (document
source), so the destination's scalar is never replaced. -/
theorem mergeDocs_keepPrim :
    ∀ (src dst res : Doc) (k : String) (n : Int),
      mergeDocs dst src = some res → lookupAssoc dst k = some (Value.prim n) →
      lookupAssoc res k = some (Value.prim n) := by
  intro src
  induction src with
  | nil =>
    intro dst res k n hm hl
    simp only [mergeDocs] at hm
    cases hm
    exact hl
  | cons entry rest ih =>
    obtain ⟨ke, sv⟩ := entry
    intro dst res k n hm hl
    cases hlk : lookupAssoc dst ke with
    | none =>
      have hne : k ≠ ke := by
        intro he
        rw [← he, hl] at hlk
        cases hlk
      simp only [mergeDocs, hlk] at hm
      exact ih _ _ _ _ hm (by rw [lookupAssoc_setAssoc_ne _ _ _ _ hne]; exact hl)
    | some dv =>
      cases sv with
      | prim m =>
        simp only [mergeDocs, hlk] at hm
        exact ih _ _ _ _ hm hl
      | doc svMap =>
        cases dv with
        | prim m =>
          simp only [mergeDocs, hlk] at hm
          cases hm
        | doc dvMap =>
          have hne : k ≠ ke := by
            intro he
            rw [← he, hl] at hlk
            cases hlk
          simp only [mergeDocs, hlk] at hm
          cases hmm : mergeDocs dvMap svMap with
          | none => simp only [hmm] at hm; cases hm
          | some merged =>
            simp only [hmm] at hm
            exact ih _ _ _ _ hm (by rw [lookupAssoc_setAssoc_ne _ _ _ _ hne]; exact hl)

/-- When the merge destination holds a scalar at a key for which the
merge source supplies a nested document, the merge panics. -/
theorem mergeDocs_conflict :
    ∀ (src dst : Doc) (k : String) (n : Int) (inner : List (String × Value)),
      lookupAssoc dst k = some (Value.prim n) →
      lookupAssoc src k = some (Value.doc inner) →
      mergeDocs dst src = none := by
  intro src
  induction src with
  | nil =>
    intro dst k n inner _ hs
    cases hs
  | cons entry rest ih =>
    obtain ⟨ke, sv⟩ := entry
    intro dst k n inner hd hs
    by_cases he : ke = k
    · subst he
      have hsv : sv = Value.doc inner := by
        simpa [lookupAssoc] using hs
      subst hsv
      simp only [mergeDocs, hd]
    · have hs' : lookupAssoc rest k = some (Value.doc inner) := by
        simpa [lookupAssoc, he] using hs
      cases hlk : lookupAssoc dst ke with
      | none =>
        simp only [mergeDocs, hlk]
        exact ih _ _ _ _
          (by rw [lookupAssoc_setAssoc_ne _ _ _ _ (fun hh => he hh.symm)]; exact hd) hs'
      | some dv =>
        cases sv with
        | prim m =>
          simp only [mergeDocs, hlk]
          exact ih _ _ _ _ hd hs'
        | doc svMap =>
          cases dv with
          | prim m => simp only [mergeDocs, hlk]
          | doc dvMap =>
            simp only [mergeDocs, hlk]
            cases hmm : mergeDocs dvMap svMap with
            | none => simp
            | some merged =>
              simp only
              exact ih _ _ _ _
                (by rw [lookupAssoc_setAssoc_ne _ _ _ _ (fun hh => he hh.symm)]; exact hd) hs'

/-- C1 counterexample: upserting a scalar onto a stored scalar at the
same key keeps the INCOMING value, because `Upsert` passes the incoming
document as the merge destination.  After `Upsert("id1", a=2)` onto a
stored `a=1`, `Get` returns the document with `a = 2`, not `1`. -/
theorem upsert_stored_scalar_loses :
    Upsert [("id1", [("a", Value.prim 1)])] "id1" [("a", Value.prim 2)]
      = some [("id1", [("a", Value.prim 2)])] ∧
    docGet [("id1", [("a", Value.prim 2)])] "id1" = some [("a", Value.prim 2)] ∧
    lookupAssoc [("a", Value.prim 2)] "a" = some (Value.prim 2) ∧
    Value.prim 2 ≠ Value.prim 1 := by
  refine ⟨?_, by simp [docGet, lookupAssoc], by simp [lookupAssoc], by simp⟩
  simp [Upsert, mergeDocs, lookupAssoc, setAssoc]

/-- C1 (amended): on an upsert onto an existing document, a scalar field
of the INCOMING document wins whenever the merge completes: the stored
value at that key is discarded and `Get` observes the incoming value. -/
theorem upsert_incoming_scalar_wins :
    ∀ (docs : DocStoreMap) (id : String) (d dNew : Doc) (k : String)
      (mval : Int) (res : DocStoreMap),
      lookupAssoc docs id = some d →
      lookupAssoc dNew k = some (Value.prim mval) →
      Upsert docs id dNew = some res →
      ∃ dRes, docGet res id = some dRes ∧ lookupAssoc dRes k = some (Value.prim mval) := by
  intro docs id d dNew k mval res hdoc hnew hup
  simp only [Upsert, hdoc] at hup
  cases hmm : mergeDocs dNew d with
  | none => simp only [hmm] at hup; cases hup
  | some merged =>
    simp only [hmm] at hup
    cases hup
    refine ⟨merged, ?_, ?_⟩
    · simp [docGet, lookupAssoc_setAssoc_self]
    · exact mergeDocs_keepPrim _ _ _ _ _ hmm hnew

/-- C1 witness: concrete instance of `upsert_incoming_scalar_wins` at the
claim's own example, `Upsert(id1, a=2)` onto a stored `a=1`. -/
theorem upsert_incoming_scalar_wins_witness :
    ∃ dRes,
      docGet [("id1", [("a", Value.prim 2)])] "id1" = some dRes ∧
      lookupAssoc dRes "a" = some (Value.prim 2) :=
  upsert_incoming_scalar_wins
    [("id1", [("a", Value.prim 1)])] "id1" [("a", Value.prim 1)]
    [("a", Value.prim 2)] "a" 2 [("id1", [("a", Value.prim 2)])]
    (by simp [lookupAssoc]) (by simp [lookupAssoc])
    (by simp [Upsert, mergeDocs, lookupAssoc, setAssoc])

/-- C2 counterexample: upserting a nested document onto a stored scalar
at the same key does NOT raise a type conflict — the incoming nested
document silently replaces the stored scalar (the merge's scalar-source
`continue` branch fires, the panic branch never runs). -/
theorem upsert_doc_onto_scalar_no_conflict :
    Upsert [("id1", [("a", Value.prim 5)])] "id1" [("a", Value.doc [("x", Value.prim 1)])]
      = some [("id1", [("a", Value.doc [("x", Value.prim 1)])])] ∧
    Upsert [("id1", [("a", Value.prim 5)])] "id1" [("a", Value.doc [("x", Value.prim 1)])]
      ≠ none := by
  constructor
  · simp [Upsert, mergeDocs, lookupAssoc, setAssoc]
  · simp [Upsert, mergeDocs, lookupAssoc, setAssoc]

/-- C2 (amended): the merge type conflict fires in exactly one direction:
whenever the incoming (upserted) document holds a scalar at a key where
the stored document holds a nested document, the upsert panics; the
spec's example — upserting `a=5` onto a stored `a` holding a nested
document — is an instance. -/
theorem upsert_scalar_onto_doc_conflict :
    (∀ (docs : DocStoreMap) (id : String) (d dNew : Doc) (k : String)
      (n : Int) (inner : List (String × Value)),
      lookupAssoc docs id = some d →
      lookupAssoc dNew k = some (Value.prim n) →
      lookupAssoc d k = some (Value.doc inner) →
      Upsert docs id dNew = none) ∧
    Upsert [("id1", [("a", Value.doc [("y", Value.prim 2)])])] "id1" [("a", Value.prim 5)]
      = none := by
  constructor
  · intro docs id d dNew k n inner hdoc hnew hstored
    simp only [Upsert, hdoc]
    rw [mergeDocs_conflict d dNew k n inner hnew hstored]
  · simp [Upsert, mergeDocs, lookupAssoc, setAssoc]

/-- C2 witness: instance of the conflict direction of
`upsert_scalar_onto_doc_conflict` at the spec's example. -/
theorem upsert_scalar_onto_doc_conflict_witness :
    Upsert [("idW", [("a", Value.doc [("y", Value.prim 2)])])] "idW" [("a", Value.prim 5)]
      = none :=
  upsert_scalar_onto_doc_conflict.1
    [("idW", [("a", Value.doc [("y", Value.prim 2)])])] "idW"
    [("a", Value.doc [("y", Value.prim 2)])] [("a", Value.prim 5)] "a" 5
    [("y", Value.prim 2)]
    (by simp [lookupAssoc]) (by simp [lookupAssoc]) (by simp [lookupAssoc])

/-- C3 counterexample: with an exhausted randomness source (no bytes
left), identifier allocation does not return any error value — it
panics, via `uuid.Must`, before the function can return. -/
theorem generateUUID_rand_failure_not_error :
    generateUUID (fun _ => Except.ok false) [] = GenResult.panicked ∧
    isErrResult (generateUUID (fun _ => Except.ok false) []) = false := by
  exact ⟨rfl, rfl⟩

/-- C3 (amended): a failing or exhausted randomness source (no next
block, or a short read) makes allocation abort immediately by panicking
(`uuid.Must`); the source's error is never surfaced as an ordinary
returned error. -/
theorem generateUUID_rand_failure_panics :
    ∀ (stat : String → Except String Bool) (src : List (List Nat)),
      (src = [] ∨ ∃ block rest, src = block :: rest ∧ block.length ≠ 16) →
      generateUUID stat src = GenResult.panicked ∧
      isErrResult (generateUUID stat src) = false := by
  intro stat src h
  rcases h with h | ⟨block, rest, hsrc, hlen⟩
  · subst h
    exact ⟨rfl, rfl⟩
  · subst hsrc
    constructor
    · simp [generateUUID, hlen]
    · simp [generateUUID, hlen, isErrResult]

/-- C3 witness: `generateUUID_rand_failure_panics` at the empty source. -/
theorem generateUUID_rand_failure_panics_witness :
    generateUUID (fun _ => Except.ok false) [] = GenResult.panicked ∧
    isErrResult (generateUUID (fun _ => Except.ok false) []) = false :=
  generateUUID_rand_failure_panics (fun _ => Except.ok false) [] (Or.inl rfl)

/-- C5 counterexample: scripted source yielding the same block twice then
a distinct third (the repo test's bytes), with the first candidate's
rendering already present in the object store: allocation makes THREE
`Stat` probes — it retries twice, not once — before returning the third
value's rendering. -/
theorem generateUUID_retries_twice_not_once :
    generateUUIDProbes
      (fun s => Except.ok
        (s == renderUUID [48, 49, 50, 51, 52, 53, 54, 55, 56, 57, 65, 66, 67, 68, 69, 70]))
      [[48, 49, 50, 51, 52, 53, 54, 55, 56, 57, 65, 66, 67, 68, 69, 70],
       [48, 49, 50, 51, 52, 53, 54, 55, 56, 57, 65, 66, 67, 68, 69, 70],
       [70, 69, 68, 66, 67, 65, 57, 56, 55, 54, 53, 52, 51, 50, 49, 48]]
      = (GenResult.ok
          (renderUUID [70, 69, 68, 66, 67, 65, 57, 56, 55, 54, 53, 52, 51, 50, 49, 48]), 3) ∧
    (3 : Nat) ≠ 2 := by
  exact ⟨by decide, by decide⟩

/-- C5 (amended): with a source yielding one block twice then a distinct
third, and the first candidate's rendering colliding in the object store,
the allocator probes three times — one probe per generated candidate,
i.e. it retries twice, once per colliding probe — and returns the third
value's canonical rendering; in general, an allocation that returns an
identifier returns one whose `Stat` probe confirmed it absent. -/
theorem generateUUID_collision_retry :
    ∀ (A B : List Nat), A.length = 16 → B.length = 16 →
      renderUUID B ≠ renderUUID A →
      generateUUIDProbes (fun s => Except.ok (s == renderUUID A)) [A, A, B]
        = (GenResult.ok (renderUUID B), 3) ∧
      (∀ (stat : String → Except String Bool) (src : List (List Nat)) (id : String),
        generateUUID stat src = GenResult.ok id → stat id = Except.ok false) := by
  intro A B hA hB hne
  constructor
  · have hBA : (renderUUID B == renderUUID A) = false := by
      simpa using hne
    simp [generateUUIDProbes, hA, hB, hBA]
  · intro stat src
    induction src with
    | nil => intro id h; cases h
    | cons block rest ih =>
      intro id h
      simp only [generateUUID] at h
      split at h
      · cases h
      · split at h
        next e heq => cases h
        next heq => exact ih _ h
        next heq => cases h; exact heq

/-- C5 witness: `generateUUID_collision_retry` at the repo test's two
scripted blocks (ASCII of "0123456789ABCDEF" and "FEDBCA9876543210"). -/
theorem generateUUID_collision_retry_witness :
    generateUUIDProbes
      (fun s => Except.ok
        (s == renderUUID [48, 49, 50, 51, 52, 53, 54, 55, 56, 57, 65, 66, 67, 68, 69, 70]))
      [[48, 49, 50, 51, 52, 53, 54, 55, 56, 57, 65, 66, 67, 68, 69, 70],
       [48, 49, 50, 51, 52, 53, 54, 55, 56, 57, 65, 66, 67, 68, 69, 70],
       [70, 69, 68, 66, 67, 65, 57, 56, 55, 54, 53, 52, 51, 50, 49, 48]]
      = (GenResult.ok
          (renderUUID [70, 69, 68, 66, 67, 65, 57, 56, 55, 54, 53, 52, 51, 50, 49, 48]), 3) :=
  (generateUUID_collision_retry
    [48, 49, 50, 51, 52, 53, 54, 55, 56, 57, 65, 66, 67, 68, 69, 70]
    [70, 69, 68, 66, 67, 65, 57, 56, 55, 54, 53, 52, 51, 50, 49, 48]
    (by decide) (by decide) (by decide)).1

/-- The canonical rendering is never the empty string: it always carries
its four group separators. -/
theorem uuidString_ne_empty : ∀ (bs : List Nat), uuidString bs ≠ "" := by
  intro bs h
  have hd : uuidChars bs = [] := congrArg String.data h
  simp [uuidChars] at hd

/-- C4: with both object and metadata supplied and the backends empty and
error-free, `Index` returns the rendering of the drawn block as the
identifier and leaves exactly one object and one document, both stored
under that identifier; without metadata the document store is untouched;
the identifier is non-empty; and the errgroup join succeeds exactly when
every launched branch succeeded. -/
theorem index_stores_both_under_one_id :
    ∀ (b : List Nat) (metadata : Doc) (object : List Nat), b.length = 16 →
      Index [b] ⟨[], []⟩ (some metadata) object
        = SvcResult.ok (renderUUID b, ⟨[(renderUUID b, object)], [(renderUUID b, metadata)]⟩) ∧
      Index [b] ⟨[], []⟩ none object
        = SvcResult.ok (renderUUID b, ⟨[(renderUUID b, object)], []⟩) ∧
      renderUUID b ≠ "" ∧
      (∀ rs : List (Option String), groupWait rs = none ↔ ∀ r ∈ rs, r = none) := by
  intro b metadata object hb
  refine ⟨?_, ?_, uuidString_ne_empty _, ?_⟩
  · simp [Index, generateUUID, hb, objStat, lookupAssoc, objPut, setAssoc, Upsert]
  · simp [Index, generateUUID, hb, objStat, lookupAssoc, objPut, setAssoc]
  · intro rs
    induction rs with
    | nil => simp [groupWait]
    | cons r rest ih =>
      cases r with
      | none => simp [groupWait, ih]
      | some e => simp [groupWait]

/-- C4 witness: `index_stores_both_under_one_id` at a concrete block,
object and metadata document. -/
theorem index_stores_both_under_one_id_witness :
    Index [[0, 0, 0, 0, 0, 0, 0, 0, 0, 0, 0, 0, 0, 0, 0, 0]] ⟨[], []⟩
        (some [("name", Value.prim 7)]) [1, 2, 3]
      = SvcResult.ok
          (renderUUID [0, 0, 0, 0, 0, 0, 0, 0, 0, 0, 0, 0, 0, 0, 0, 0],
           ⟨[(renderUUID [0, 0, 0, 0, 0, 0, 0, 0, 0, 0, 0, 0, 0, 0, 0, 0], [1, 2, 3])],
            [(renderUUID [0, 0, 0, 0, 0, 0, 0, 0, 0, 0, 0, 0, 0, 0, 0, 0],
              [("name", Value.prim 7)])]⟩) ∧
    renderUUID [0, 0, 0, 0, 0, 0, 0, 0, 0, 0, 0, 0, 0, 0, 0, 0] ≠ "" := by
  have h := index_stores_both_under_one_id
    [0, 0, 0, 0, 0, 0, 0, 0, 0, 0, 0, 0, 0, 0, 0, 0]
    [("name", Value.prim 7)] [1, 2, 3] (by decide)
  exact ⟨h.1, h.2.2.1⟩

/-- C9: `DeleteFromIndex` succeeds unconditionally and leaves both the
object store and the document store exactly as they were — it is a
no-op, not a removal. -/
theorem deleteFromIndex_noop :
    ∀ (st : ServiceState) (id : String),
      DeleteFromIndex st id = (none, st) ∧
      (DeleteFromIndex st id).2.objects = st.objects ∧
      (DeleteFromIndex st id).2.docs = st.docs := by
  intro st id
  exact ⟨rfl, rfl, rfl⟩

/-- The scan loop's slots hold, at the end, the decoded content of the
LAST part of each recognized name (or the slot's initial value when no
such part occurs); every other field name is skipped. -/
theorem readPartsLoop_lastNamed (dec : List Nat → Option (List Nat)) :
    ∀ (parts : List Part) (m o : Option (List Nat)),
      (∀ p ∈ parts, p.name = "metadata" → (dec p.content).isSome) →
      readPartsLoop dec parts m o = .ok
        ((match lastNamed "metadata" parts with
          | some q => dec q.content
          | none => m),
         (match lastNamed "object" parts with
          | some q => some q.content
          | none => o)) := by
  intro parts
  induction parts with
  | nil =>
    intro m o _
    simp [readPartsLoop, lastNamed]
  | cons p rest ih =>
    intro m o hdec
    have hrest : ∀ q ∈ rest, q.name = "metadata" → (dec q.content).isSome :=
      fun q hq => hdec q (List.mem_cons_of_mem _ hq)
    by_cases hm : p.name = "metadata"
    · obtain ⟨j, hj⟩ := Option.isSome_iff_exists.mp (hdec p (List.mem_cons_self _ _) hm)
      rw [readPartsLoop, if_pos hm]
      simp only [hj]
      rw [ih (some j) o hrest]
      cases hlm : lastNamed "metadata" rest <;> cases hlo : lastNamed "object" rest <;>
        simp [lastNamed, hlm, hlo, hm, hj]
    · by_cases ho : p.name = "object"
      · rw [readPartsLoop, if_neg hm, if_pos ho, ih m (some p.content) hrest]
        cases hlm : lastNamed "metadata" rest <;> cases hlo : lastNamed "object" rest <;>
          simp [lastNamed, hlm, hlo, hm, ho]
      · rw [readPartsLoop, if_neg hm, if_neg ho, ih m o hrest]
        cases hlm : lastNamed "metadata" rest <;> cases hlo : lastNamed "object" rest <;>
          simp [lastNamed, hlm, hlo, hm, ho]

/-- A list in which no part carries the given name has no last part of
that name. -/
theorem lastNamed_none_of_all_ne (nm : String) :
    ∀ (parts : List Part), (∀ q ∈ parts, ¬ q.name = nm) →
      lastNamed nm parts = none := by
  intro parts
  induction parts with
  | nil => intro _; rfl
  | cons p rest ih =>
    intro h
    have hp : ¬ p.name = nm := h p (List.mem_cons_self _ _)
    have hr := fun q hq => h q (List.mem_cons_of_mem _ hq)
    simp [lastNamed, ih hr, hp]

/-- With at most one part of the given name, the last such part is also
the first one found. -/
theorem lastNamed_eq_find_of_unique (nm : String) :
    ∀ (parts : List Part), (parts.filter (fun p => p.name == nm)).length ≤ 1 →
      lastNamed nm parts = parts.find? (fun p => p.name == nm) := by
  intro parts
  induction parts with
  | nil => intro _; rfl
  | cons p rest ih =>
    intro h
    cases hb : (p.name == nm) with
    | true =>
      simp [List.filter_cons, hb] at h
      have hname : p.name = nm := by simpa using hb
      simp [lastNamed, List.find?, hb, lastNamed_none_of_all_ne nm rest h, hname]
    | false =>
      have hrest : (rest.filter (fun p => p.name == nm)).length ≤ 1 := by
        simpa [List.filter_cons, hb] using h
      have hne : ¬ p.name = nm := by simpa using hb
      have hfr : List.find? (fun q => q.name == nm) (p :: rest)
          = List.find? (fun q => q.name == nm) rest := by
        simp [List.find?, hb]
      rw [hfr, ← ih hrest]
      cases hl : lastNamed nm rest with
      | some q => simp [lastNamed, hl]
      | none => simp [lastNamed, hl, hne]

/-- C6: on a well-formed multipart form body with at most one part per
recognized name, `ReadParts` returns the metadata part's decoded JSON
bytes and the object part's raw bytes, `none` for whichever of the two is
absent, regardless of where in the part sequence they occur; parts with
any other field name are ignored. -/
theorem readParts_named_parts :
    ∀ (dec : List Nat → Option (List Nat)) (params : List (String × String))
      (parts : List Part) (bval : String),
      lookupAssoc params "boundary" = some bval →
      (∀ p ∈ parts, p.name = "metadata" → (dec p.content).isSome) →
      (parts.filter (fun p => p.name == "metadata")).length ≤ 1 →
      (parts.filter (fun p => p.name == "object")).length ≤ 1 →
      ReadParts dec "multipart/form-data" params parts
        = .ok ((parts.find? (fun p => p.name == "metadata")).bind (fun p => dec p.content),
               (parts.find? (fun p => p.name == "object")).map (fun p => p.content)) := by
  intro dec params parts bval hb hdec hm1 ho1
  rw [ReadParts, if_pos (by decide), hb,
    readPartsLoop_lastNamed dec parts none none hdec,
    lastNamed_eq_find_of_unique _ _ hm1, lastNamed_eq_find_of_unique _ _ ho1]
  cases parts.find? (fun p => p.name == "metadata") with
  | none =>
    cases parts.find? (fun p => p.name == "object") with
    | none => rfl
    | some q => rfl
  | some q =>
    cases parts.find? (fun p => p.name == "object") with
    | none => rfl
    | some q2 => rfl

/-- C6 witness: a body containing only an object part decodes to
`(metadata = none, object = bytes)`. -/
theorem readParts_named_parts_witness :
    ReadParts (fun b => some b) "multipart/form-data" [("boundary", "b")]
        [⟨"object", [7, 8]⟩]
      = .ok (none, some [7, 8]) := by
  have h := readParts_named_parts (fun b => some b) [("boundary", "b")]
    [⟨"object", [7, 8]⟩] "b" (by simp [lookupAssoc]) (by simp) (by simp) (by simp)
  simpa using h

/-- C10: whenever several parts share the recognized field name
`object` (or `metadata`), the scan silently overwrites the earlier
content: the result holds the LAST such part's content. -/
theorem readParts_last_duplicate_wins :
    ∀ (dec : List Nat → Option (List Nat)) (params : List (String × String))
      (parts : List Part) (bval : String),
      lookupAssoc params "boundary" = some bval →
      (∀ p ∈ parts, p.name = "metadata" → (dec p.content).isSome) →
      ReadParts dec "multipart/form-data" params parts
        = .ok ((lastNamed "metadata" parts).bind (fun p => dec p.content),
               (lastNamed "object" parts).map (fun p => p.content)) := by
  intro dec params parts bval hb hdec
  rw [ReadParts, if_pos (by decide), hb,
    readPartsLoop_lastNamed dec parts none none hdec]
  cases lastNamed "metadata" parts with
  | none =>
    cases lastNamed "object" parts with
    | none => rfl
    | some q => rfl
  | some q =>
    cases lastNamed "object" parts with
    | none => rfl
    | some q2 => rfl

/-- C10 witness: two parts named `object` — the second one's content is
returned. -/
theorem readParts_last_duplicate_wins_witness :
    ReadParts (fun b => some b) "multipart/form-data" [("boundary", "b")]
        [⟨"object", [1]⟩, ⟨"object", [2]⟩]
      = .ok (none, some [2]) := by
  have h := readParts_last_duplicate_wins (fun b => some b) [("boundary", "b")]
    [⟨"object", [1]⟩, ⟨"object", [2]⟩] "b" (by simp [lookupAssoc]) (by simp)
  simpa [lastNamed] using h

/-- C7 counterexample: a media type that merely BEGINS with
`multipart/form-data` without being a multipart form — here
`multipart/form-datax` — is not rejected: `ReadParts` proceeds past the
content-type check (the Go code tests `strings.HasPrefix`) and scans the
body. -/
theorem readParts_content_type_by_pre :
    ReadParts (fun b => some b) "multipart/form-datax" [("boundary", "x")] []
      = .ok (none, none) ∧
    "multipart/form-datax" ≠ "multipart/form-data" := by
  exact ⟨by rfl, by decide⟩

/-- C7 (amended): `ReadParts` fails with the content-type condition,
carrying the rejected media type, for every declared media type that
does not START WITH `multipart/form-data` (in particular
`application/json`), and fails with the missing-boundary condition when
the media type passes that check but the `boundary` parameter is absent;
in both failure cases the result is independent of the body's parts, so
no part scanning occurs. -/
theorem readParts_rejects_bad_header :
    ∀ (dec : List Nat → Option (List Nat)) (mediaType : String)
      (params : List (String × String)) (parts : List Part),
      (strStartsWith mediaType "multipart/form-data" = false →
        ReadParts dec mediaType params parts = .error (.contentType mediaType)) ∧
      (strStartsWith mediaType "multipart/form-data" = true →
        lookupAssoc params "boundary" = none →
        ReadParts dec mediaType params parts = .error .missingBoundary) := by
  intro dec mediaType params parts
  constructor
  · intro hpre
    rw [ReadParts, if_neg (by simp [hpre])]
  · intro hpre hb
    rw [ReadParts, if_pos hpre, hb]

/-- C7 witness: `application/json` is rejected as
`ContentTypeError("application/json")`, and a multipart form without a
boundary parameter is rejected as `ErrMissingBoundary`. -/
theorem readParts_rejects_bad_header_witness :
    ReadParts (fun b => some b) "application/json" [] []
      = .error (.contentType "application/json") ∧
    ReadParts (fun b => some b) "multipart/form-data" [] []
      = .error .missingBoundary := by
  exact ⟨(readParts_rejects_bad_header (fun b => some b) "application/json" [] []).1
      (by decide),
    (readParts_rejects_bad_header (fun b => some b) "multipart/form-data" [] []).2
      (by decide) rfl⟩

/-- Writing an absent key into a document preserves reachability of
every path that was reachable before. -/
theorem getPath_setAssoc_of_absent :
    ∀ (dst : Doc) (k : String) (v : Value) (path : List String),
      lookupAssoc dst k = none →
      (getPath dst path).isSome → (getPath (setAssoc dst k v) path).isSome := by
  intro dst k v path hnone hsome
  match path with
  | [] => simp [getPath] at hsome
  | [k1] =>
    simp only [getPath] at hsome ⊢
    have hne : k1 ≠ k := by
      intro he
      rw [he, hnone] at hsome
      simp at hsome
    rw [lookupAssoc_setAssoc_ne _ _ _ _ hne]
    exact hsome
  | k1 :: k2 :: p =>
    simp only [getPath] at hsome ⊢
    cases hl : lookupAssoc dst k1 with
    | none => rw [hl] at hsome; simp at hsome
    | some v1 =>
      have hne : k1 ≠ k := by
        intro he
        rw [he, hnone] at hl
        cases hl
      rw [lookupAssoc_setAssoc_ne _ _ _ _ hne, hl]
      rw [hl] at hsome
      exact hsome

/-- Replacing a nested document at a key by one that preserves all its
reachable paths preserves reachability of every path of the outer
document. -/
theorem getPath_setAssoc_of_doc :
    ∀ (dst : Doc) (k : String) (dvMap m : List (String × Value)) (path : List String),
      lookupAssoc dst k = some (Value.doc dvMap) →
      (∀ q, (getPath dvMap q).isSome → (getPath m q).isSome) →
      (getPath dst path).isSome → (getPath (setAssoc dst k (Value.doc m)) path).isSome := by
  intro dst k dvMap m path hdoc hpres hsome
  match path with
  | [] => simp [getPath] at hsome
  | [k1] =>
    simp only [getPath] at hsome ⊢
    by_cases he : k1 = k
    · subst he
      rw [lookupAssoc_setAssoc_self]
      simp
    · rw [lookupAssoc_setAssoc_ne _ _ _ _ he]
      exact hsome
  | k1 :: k2 :: p =>
    simp only [getPath] at hsome ⊢
    by_cases he : k1 = k
    · subst he
      rw [hdoc] at hsome
      rw [lookupAssoc_setAssoc_self]
      exact hpres (k2 :: p) hsome
    · rw [lookupAssoc_setAssoc_ne _ _ _ _ he]
      exact hsome

/-- C8: the merge is additive at every nesting level it reaches — any
path of keys reachable in the destination before a successful merge is
still reachable in the result; no existing key is ever removed. -/
theorem merge_additive_paths :
    ∀ (dst src res : Doc), mergeDocs dst src = some res →
      ∀ p : List String, (getPath dst p).isSome → (getPath res p).isSome := by
  intro dst src
  induction dst, src using mergeDocs.induct with
  | case1 dst =>
    intro res hm p hp
    simp only [mergeDocs] at hm
    cases hm
    exact hp
  | case2 dst k sv rest hnone ih =>
    intro res hm p hp
    simp only [mergeDocs, hnone] at hm
    exact ih res hm p (getPath_setAssoc_of_absent dst k sv p hnone hp)
  | case3 dst k rest dv hdv n ih =>
    intro res hm p hp
    simp only [mergeDocs, hdv] at hm
    exact ih res hm p hp
  | case4 dst k rest dvMap n hprim =>
    intro res hm p hp
    simp only [mergeDocs, hprim] at hm
    cases hm
  | case5 dst k rest dvMap dvMap1 hnested hdoc ihn =>
    intro res hm p hp
    simp only [mergeDocs, hdoc, hnested] at hm
    cases hm
  | case6 dst k rest dvMap dvMap1 merged hnested hdoc ihn ih =>
    intro res hm p hp
    simp only [mergeDocs, hdoc, hnested] at hm
    refine ih res hm p ?_
    exact getPath_setAssoc_of_doc dst k dvMap1 merged p hdoc
      (fun q hq => ihn merged hnested q hq) hp

/-- C8 witness: `merge_additive_paths` at a concrete merge — key `a` of
the destination is still reachable after merging in `b`. -/
theorem merge_additive_paths_witness :
    mergeDocs [("a", Value.prim 1)] [("b", Value.prim 2)]
      = some [("a", Value.prim 1), ("b", Value.prim 2)] ∧
    (getPath [("a", Value.prim 1)] ["a"]).isSome = true ∧
    (getPath [("a", Value.prim 1), ("b", Value.prim 2)] ["a"]).isSome = true := by
  have hm : mergeDocs [("a", Value.prim 1)] [("b", Value.prim 2)]
      = some [("a", Value.prim 1), ("b", Value.prim 2)] := by
    simp [mergeDocs, lookupAssoc, setAssoc]
  have hp : (getPath [("a", Value.prim 1)] ["a"]).isSome = true := by
    simp [getPath, lookupAssoc]
  exact ⟨hm, hp, merge_additive_paths _ _ _ hm ["a"] hp⟩

end Sakuin
